import Mathlib

/-!
Verification of the weekly-aggregation core of the ssn-reporting repository.

We shallowly embed the JavaScript source:

* dates are modelled as integer day numbers of the proleptic Gregorian
  calendar, day 0 being 0001-01-01 (a Monday); a `YYYY-MM-DD` string of the
  source corresponds to its day number, and the `format`/`new Date` string
  round-trips of the source are identities under this correspondence;
* JavaScript objects used as string-keyed maps (`users`, `daily`,
  `repositoryMetrics`) become association lists in insertion order with
  first-match lookup, which coincides with object semantics since object
  keys are unique;
* JavaScript numbers holding counters are `Nat`/`Int`; the fractional
  scoring and percentage arithmetic is over `ℚ` (the values involved are
  exactly representable); `Math.round x` is `⌊x + 1/2⌋`;
* the `Infinity` sentinel stored in the `change` field by the comparator is
  a dedicated constructor of an inductive type, never a number;
* `new Date().toISOString()` timestamps are an opaque `String` parameter
  threaded explicitly.
-/

/-! ## Calendar module (src/utils/weekCalculator.js and the date-fns
functions it delegates to) -/

/-- Days of the proleptic Gregorian calendar strictly before January 1st of
year `y`, counting from day 0 = 0001-01-01.  Standard leap-year rule. -/
def daysBeforeYear (y : ℤ) : ℤ :=
  365 * (y - 1) + (y - 1) / 4 - (y - 1) / 100 + (y - 1) / 400

/-- Day number of January 4th of year `y` (`new Date(year, 0, 4)`). -/
def jan4 (y : ℤ) : ℤ := daysBeforeYear y + 3

/-- date-fns `startOfISOWeek`: the Monday on or before day `n`.  Day 0 is a
Monday, so the weekday index with Monday = 0 is `n % 7`. -/
def mondayOf (n : ℤ) : ℤ := n - n % 7

/-- Calendar year containing day `n` (JavaScript `date.getFullYear()`):
decompose `n` into 400-year eras of 146097 days and count the complete
years of the era that precede the day. -/
def yearOfDay (n : ℤ) : ℤ :=
  400 * (n / 146097) +
    ((List.range 400).countP
      (fun k : ℕ => decide (daysBeforeYear ((k : ℤ) + 2) ≤ n % 146097)) :
        ℤ) + 1

/-- date-fns `getISOWeekYear`: compare against the start of the ISO week
year of the calendar year and of the next one. -/
def getISOWeekYear (n : ℤ) : ℤ :=
  let y := yearOfDay n
  if mondayOf (jan4 (y + 1)) ≤ n then y + 1
  else if mondayOf (jan4 y) ≤ n then y
  else y - 1

/-- date-fns `getISOWeek`: calendar-day distance from the start of the ISO
week year, divided by 7, plus one. -/
def getISOWeek (n : ℤ) : ℤ :=
  (mondayOf n - mondayOf (jan4 (getISOWeekYear n))) / 7 + 1

/-- `getWeekDateRange` of weekCalculator.js: start of the ISO week of
January 4th, advanced by `week - 1` weeks; the end is the Sunday of that
week (`endOfISOWeek`). -/
def getWeekDateRange (year week : ℤ) : ℤ × ℤ :=
  let weekStart := mondayOf (jan4 year)
  let targetStart := weekStart + 7 * (week - 1)
  (targetStart, mondayOf targetStart + 6)

/-- `getWeekForDate` of weekCalculator.js. -/
def getWeekForDate (n : ℤ) : ℤ × ℤ := (getISOWeekYear n, getISOWeek n)

/-- `getAllDatesInWeek` of weekCalculator.js: the seven days of the week in
ascending order. -/
def getAllDatesInWeek (year week : ℤ) : List ℤ :=
  (List.range 7).map (fun i => (getWeekDateRange year week).1 + (i : ℤ))

/-- The actual number of ISO weeks of ISO week year `y`: the number of
weeks between the first day of ISO year `y` and the first day of ISO year
`y + 1`. -/
def isoWeeksInYear (y : ℤ) : ℤ :=
  (mondayOf (jan4 (y + 1)) - mondayOf (jan4 y)) / 7

/-- `formatWeekString` of weekCalculator.js / fileManager.js:
`year-paddedWeek`. -/
def formatWeekString (year week : ℤ) : String :=
  let s := toString week
  toString year ++ "-" ++ (if s.length < 2 then "0" ++ s else s)

/-- `getPreviousWeek` of src/storage/fileManager.js: decrement the week;
on week 1 fall back to week 52 of the previous year (hard-coded). -/
def getPreviousWeek (year week : ℤ) : ℤ × ℤ :=
  if 1 < week then (year, week - 1) else (year - 1, 52)

/-! ## Data model and aggregator (src/storage/dataAggregator.js) -/

/-- The per-day (and per-repository, and weekly) counter record. -/
structure DailyMetrics where
  commits : ℕ
  prs : ℕ
  linesAdded : ℕ
  linesDeleted : ℕ
  reviewsGiven : ℕ
  reviewCommentsGiven : ℕ
  discussionCommentsGiven : ℕ
deriving DecidableEq

/-- The all-zero counter record used whenever the source initializes one. -/
def zeroMetrics : DailyMetrics := ⟨0, 0, 0, 0, 0, 0, 0⟩

/-- Field-wise addition of counter records (the `+=` loops of the source). -/
def addMetrics (a b : DailyMetrics) : DailyMetrics :=
  ⟨a.commits + b.commits, a.prs + b.prs, a.linesAdded + b.linesAdded,
   a.linesDeleted + b.linesDeleted, a.reviewsGiven + b.reviewsGiven,
   a.reviewCommentsGiven + b.reviewCommentsGiven,
   a.discussionCommentsGiven + b.discussionCommentsGiven⟩

/-- A user's record inside a week snapshot. -/
structure UserWeekRecord where
  daily : List (String × DailyMetrics)
  weekly : DailyMetrics
deriving DecidableEq

/-- The persisted weekly snapshot.  `weekStart`/`weekEnd` are day numbers,
`generatedAt` is an opaque timestamp string. -/
structure WeekSnapshot where
  week : String
  weekStart : ℤ
  weekEnd : ℤ
  generatedAt : String
  repositories : List String
  repositoryMetrics : List (String × DailyMetrics)
  users : List (String × UserWeekRecord)
deriving DecidableEq

/-- First-match lookup in an association list (JavaScript `obj[key]`). -/
def findA {α : Type} (k : String) : List (String × α) → Option α
  | [] => none
  | (k', v) :: rest => if k' = k then some v else findA k rest

/-- Update the first entry with the given key (JavaScript in-place
mutation of `obj[key]`). -/
def updateA {α : Type} (k : String) (f : α → α) :
    List (String × α) → List (String × α)
  | [] => []
  | (k', v) :: rest =>
      if k' = k then (k', f v) :: rest else (k', v) :: updateA k f rest

/-- `[...new Set(l)]`: keep the first occurrence of each element, in
order. -/
def setUnion (l : List String) : List String :=
  l.foldl (fun acc x => if x ∈ acc then acc else acc ++ [x]) []

/-- `ensureUserExists`: create an empty user record if absent. -/
def ensureUserExists (users : List (String × UserWeekRecord)) (u : String) :
    List (String × UserWeekRecord) :=
  if (findA u users).isSome then users else users ++ [(u, ⟨[], zeroMetrics⟩)]

/-- `ensureDateExists` for one user record: create a zeroed day entry if
absent. -/
def ensureDateInRecord (r : UserWeekRecord) (d : String) : UserWeekRecord :=
  if (findA d r.daily).isSome then r
  else { r with daily := r.daily ++ [(d, zeroMetrics)] }

/-- The inner loop of `mergeWithExisting`: copy each fresh day entry into
the base daily map only when the date is absent. -/
def mergeDaily (base fresh : List (String × DailyMetrics)) :
    List (String × DailyMetrics) :=
  fresh.foldl (fun acc e => if (findA e.1 acc).isSome then acc else acc ++ [e])
    base

/-- One user step of `mergeWithExisting`: ensure the user exists, then
merge the fresh daily entries into that user's record. -/
def mergeUsersStep (acc : List (String × UserWeekRecord))
    (e : String × UserWeekRecord) : List (String × UserWeekRecord) :=
  updateA e.1 (fun r => { r with daily := mergeDaily r.daily e.2.daily })
    (ensureUserExists acc e.1)

/-- The user loop of `mergeWithExisting`. -/
def mergeUsers (base fresh : List (String × UserWeekRecord)) :
    List (String × UserWeekRecord) :=
  fresh.foldl mergeUsersStep base

/-- Sum of all daily entries of a user (`calculateWeeklyTotals` inner
loop: reset to zero, then add every day). -/
def dailySum (daily : List (String × DailyMetrics)) : DailyMetrics :=
  daily.foldl (fun acc e => addMetrics acc e.2) zeroMetrics

/-- Recompute one user's weekly roll-up from its daily map. -/
def recomputeUser (r : UserWeekRecord) : UserWeekRecord :=
  ⟨r.daily, dailySum r.daily⟩

/-- `calculateWeeklyTotals` of dataAggregator.js. -/
def calculateWeeklyTotals (s : WeekSnapshot) : WeekSnapshot :=
  { s with users := s.users.map (fun e => (e.1, recomputeUser e.2)) }

/-- `mergeWithExisting` of dataAggregator.js: deep-copy the existing
snapshot, merge fresh user days that are absent, union the repository
lists when the fresh list is non-empty, restamp `generatedAt` with the
merge time, and recompute the weekly totals. -/
def mergeWithExisting (existingData newData : WeekSnapshot) (now : String) :
    WeekSnapshot :=
  let withUsers :=
    { existingData with users := mergeUsers existingData.users newData.users }
  let withRepos :=
    { withUsers with
        repositories :=
          if newData.repositories.isEmpty then withUsers.repositories
          else setUnion (withUsers.repositories ++ newData.repositories) }
  calculateWeeklyTotals { withRepos with generatedAt := now }

/-- `createEmptyWeekStructure` of dataAggregator.js. -/
def createEmptyWeekStructure (year week : ℤ) (repos : List String)
    (now : String) : WeekSnapshot :=
  let dates := getAllDatesInWeek year week
  { week := formatWeekString year week
    weekStart := dates.headD 0
    weekEnd := dates.getLastD 0
    generatedAt := now
    repositories := repos
    repositoryMetrics := repos.map (fun r => (r, zeroMetrics))
    users := [] }

/-- `addMetricsToRepository` of dataAggregator.js: lazily create the
repository's aggregate record, then add the given amounts (absent fields
of the JavaScript argument default to 0, so the argument is a full
record). -/
def addMetricsToRepository (data : WeekSnapshot) (repository : String)
    (m : DailyMetrics) : WeekSnapshot :=
  let rm :=
    if (findA repository data.repositoryMetrics).isSome then
      data.repositoryMetrics
    else data.repositoryMetrics ++ [(repository, zeroMetrics)]
  { data with
      repositoryMetrics := updateA repository (fun x => addMetrics x m) rm }

/-- `addCommitToData` of dataAggregator.js: ensure the user/date entry,
increment commits by one and the line counters by the given amounts, and
mirror the increments into the repository aggregate when a repository is
given. -/
def addCommitToData (data : WeekSnapshot) (username date : String)
    (linesAdded linesDeleted : ℕ) (repository : Option String) :
    WeekSnapshot :=
  let users1 := updateA username (fun r => ensureDateInRecord r date)
    (ensureUserExists data.users username)
  let users2 := updateA username
    (fun r =>
      { r with
          daily := updateA date
            (fun dm =>
              { dm with
                  commits := dm.commits + 1
                  linesAdded := dm.linesAdded + linesAdded
                  linesDeleted := dm.linesDeleted + linesDeleted })
            r.daily })
    users1
  let data1 := { data with users := users2 }
  match repository with
  | some r =>
      addMetricsToRepository data1 r ⟨1, 0, linesAdded, linesDeleted, 0, 0, 0⟩
  | none => data1

/-- Daily-map lookup through a users map: the value of
`users[u].daily[d]` when both are present. -/
def lookupDaily (users : List (String × UserWeekRecord)) (u d : String) :
    Option DailyMetrics :=
  (findA u users).bind (fun r => findA d r.daily)

/-! ## Week comparator (src/reports/weekComparator.js) -/

/-- The value stored in the `change` field: either the `Infinity` sentinel
of the new-contributor case or a rational percentage. -/
inductive PctChange where
  | inf : PctChange
  | val : ℚ → PctChange
deriving DecidableEq

/-- JavaScript `Math.round`: round half toward positive infinity, i.e.
the floor of `q + 1/2`, written out on the rational's numerator and
denominator so that it evaluates. -/
def jsRound (q : ℚ) : ℤ := (q + 1 / 2).num / ((q + 1 / 2).den : ℤ)

theorem jsRound_eq_floor (q : ℚ) : jsRound q = ⌊q + 1 / 2⌋ :=
  Rat.floor_def.symm

/-- `Math.round(x * 10) / 10`: round to one decimal place. -/
def round1 (q : ℚ) : ℚ := (jsRound (q * 10) : ℚ) / 10

/-- `Math.round(x * 100) / 100`: round to two decimal places. -/
def round2 (q : ℚ) : ℚ := (jsRound (q * 100) : ℚ) / 100

/-- Result record of `calculatePercentageChange`. -/
structure ComparisonResult where
  change : PctChange
  delta : ℤ
  isNew : Bool
  isInactive : Bool
  isNoData : Bool
deriving DecidableEq

/-- `calculatePercentageChange` of weekComparator.js. -/
def calculatePercentageChange (current previous : ℕ) : ComparisonResult :=
  if current = 0 ∧ previous = 0 then
    ⟨PctChange.val 0, 0, false, false, true⟩
  else if 0 < current ∧ previous = 0 then
    ⟨PctChange.inf, (current : ℤ), true, false, false⟩
  else if current = 0 ∧ 0 < previous then
    ⟨PctChange.val (-100), -(previous : ℤ), false, true, false⟩
  else
    ⟨PctChange.val
        (round1 (((current : ℚ) - (previous : ℚ)) / (previous : ℚ) * 100)),
      (current : ℤ) - (previous : ℤ), false, false, false⟩

/-- The "normal" classification of the spec: none of the three flags. -/
def isNormalComparison (r : ComparisonResult) : Bool :=
  !r.isNew && !r.isInactive && !r.isNoData

/-- One metric's comparison cell as built by `compareWeeks`:
`{ current, previous, ...calculatePercentageChange(current, previous) }`. -/
structure MetricComparison where
  current : ℕ
  previous : ℕ
  change : PctChange
  delta : ℤ
  isNew : Bool
  isInactive : Bool
  isNoData : Bool
deriving DecidableEq

/-- Build one metric comparison cell. -/
def mkMetricComparison (c p : ℕ) : MetricComparison :=
  let r := calculatePercentageChange c p
  ⟨c, p, r.change, r.delta, r.isNew, r.isInactive, r.isNoData⟩

/-- Per-user block of `compareWeeks`. -/
structure UserComparison where
  commits : MetricComparison
  prs : MetricComparison
  linesAdded : MetricComparison
  linesDeleted : MetricComparison
deriving DecidableEq

/-- Result of `compareWeeks`. -/
structure WeekComparison where
  currentWeek : String
  previousWeek : Option String
  hasPreviousWeek : Bool
  teamCommits : MetricComparison
  teamPRs : MetricComparison
  teamLinesAdded : MetricComparison
  teamLinesDeleted : MetricComparison
  users : List (String × UserComparison)
deriving DecidableEq

/-- `getTotalCommits` of weekComparator.js. -/
def getTotalCommits (s : WeekSnapshot) : ℕ :=
  (s.users.map (fun e => e.2.weekly.commits)).sum

/-- `getTotalPRs` of weekComparator.js. -/
def getTotalPRs (s : WeekSnapshot) : ℕ :=
  (s.users.map (fun e => e.2.weekly.prs)).sum

/-- `getTotalLinesAdded` of weekComparator.js. -/
def getTotalLinesAdded (s : WeekSnapshot) : ℕ :=
  (s.users.map (fun e => e.2.weekly.linesAdded)).sum

/-- `getTotalLinesDeleted` of weekComparator.js. -/
def getTotalLinesDeleted (s : WeekSnapshot) : ℕ :=
  (s.users.map (fun e => e.2.weekly.linesDeleted)).sum

/-- The weekly record of a user, or the zero default objects of
`compareWeeks` when the user (or the field) is absent. -/
def userWeeklyOr0 (s : WeekSnapshot) (u : String) : DailyMetrics :=
  match findA u s.users with
  | some r => r.weekly
  | none => zeroMetrics

/-- Per-user block: the four metric cells compared between the two
weekly records. -/
def mkUserComparison (cw pw : DailyMetrics) : UserComparison :=
  ⟨mkMetricComparison cw.commits pw.commits,
   mkMetricComparison cw.prs pw.prs,
   mkMetricComparison cw.linesAdded pw.linesAdded,
   mkMetricComparison cw.linesDeleted pw.linesDeleted⟩

/-- `compareWeeks` of weekComparator.js.  A null previous week yields the
no-previous-week structure whose `users` object is empty; otherwise the
per-user blocks are built over `new Set([...currentUsers,
...previousUsers])` in insertion order. -/
def compareWeeks (currentWeekData : WeekSnapshot)
    (previousWeekData : Option WeekSnapshot) : WeekComparison :=
  match previousWeekData with
  | none =>
      { currentWeek := currentWeekData.week
        previousWeek := none
        hasPreviousWeek := false
        teamCommits := mkMetricComparison (getTotalCommits currentWeekData) 0
        teamPRs := mkMetricComparison (getTotalPRs currentWeekData) 0
        teamLinesAdded :=
          mkMetricComparison (getTotalLinesAdded currentWeekData) 0
        teamLinesDeleted :=
          mkMetricComparison (getTotalLinesDeleted currentWeekData) 0
        users := [] }
  | some prev =>
      let allUsers :=
        setUnion (currentWeekData.users.map Prod.fst ++
          prev.users.map Prod.fst)
      { currentWeek := currentWeekData.week
        previousWeek := some prev.week
        hasPreviousWeek := true
        teamCommits :=
          mkMetricComparison (getTotalCommits currentWeekData)
            (getTotalCommits prev)
        teamPRs :=
          mkMetricComparison (getTotalPRs currentWeekData) (getTotalPRs prev)
        teamLinesAdded :=
          mkMetricComparison (getTotalLinesAdded currentWeekData)
            (getTotalLinesAdded prev)
        teamLinesDeleted :=
          mkMetricComparison (getTotalLinesDeleted currentWeekData)
            (getTotalLinesDeleted prev)
        users := allUsers.map (fun u =>
          (u, mkUserComparison (userWeeklyOr0 currentWeekData u)
            (userWeeklyOr0 prev u))) }

/-! ## Scoring (src/ai/contributorAnalyzer.js) -/

/-- Metrics argument of the scoring functions; absent JavaScript fields
default to 0. -/
structure ScoreInput where
  commits : ℕ
  prs : ℕ
  linesAdded : ℕ
  linesDeleted : ℕ
  reviewsGiven : ℕ
  reviewCommentsGiven : ℕ
  uniquePRsReviewed : ℕ
deriving DecidableEq

/-- `CODE_SCORE_CAP` of contributorAnalyzer.js. -/
def CODE_SCORE_CAP : ℚ := 300

/-- `calculateContributionScore` of contributorAnalyzer.js. -/
def calculateContributionScore (d : ScoreInput) : ℚ :=
  let codeRaw := ((d.linesAdded : ℚ) + (d.linesDeleted : ℚ)) * (1 / 100)
  (d.commits : ℚ) * 2 + (d.prs : ℚ) * 5 + min codeRaw CODE_SCORE_CAP +
    (d.reviewsGiven : ℚ) * 5 + (d.uniquePRsReviewed : ℚ) * 4 +
    (d.reviewCommentsGiven : ℚ) * 1

/-- Result of `calculateContributionScoreBreakdown`. -/
structure ScoreBreakdown where
  commits : ℚ
  prs : ℚ
  reviews : ℚ
  code : ℚ
  total : ℚ
deriving DecidableEq

/-- `calculateContributionScoreBreakdown` of contributorAnalyzer.js. -/
def calculateContributionScoreBreakdown (d : ScoreInput) : ScoreBreakdown :=
  let commits := (d.commits : ℚ) * 2
  let prs := (d.prs : ℚ) * 5
  let reviews := (d.reviewsGiven : ℚ) * 5 + (d.uniquePRsReviewed : ℚ) * 4 +
    (d.reviewCommentsGiven : ℚ) * 1
  let codeRaw := ((d.linesAdded : ℚ) + (d.linesDeleted : ℚ)) * (1 / 100)
  let code := min codeRaw CODE_SCORE_CAP
  ⟨round2 commits, round2 prs, round2 reviews, round2 code,
    round2 (commits + prs + reviews + code)⟩

/-! ## Association-list lemmas -/

theorem findA_append {α : Type} (k : String) (l1 l2 : List (String × α)) :
    findA k (l1 ++ l2) = (findA k l1).or (findA k l2) := by
  induction l1 with
  | nil => simp [findA]
  | cons e rest ih =>
      by_cases h : e.1 = k
      · simp [findA, h]
      · simp [findA, h, ih]

theorem findA_updateA_self {α : Type} (k : String) (f : α → α)
    (l : List (String × α)) :
    findA k (updateA k f l) = (findA k l).map f := by
  induction l with
  | nil => simp [findA, updateA]
  | cons e rest ih =>
      by_cases h : e.1 = k
      · simp [findA, updateA, h]
      · simp [findA, updateA, h, ih]

theorem findA_updateA_ne {α : Type} (k k' : String) (f : α → α)
    (l : List (String × α)) (h : k' ≠ k) :
    findA k (updateA k' f l) = findA k l := by
  induction l with
  | nil => simp [updateA]
  | cons e rest ih =>
      by_cases he : e.1 = k'
      · simp [findA, updateA, he, h, ih]
      · by_cases hk : e.1 = k
        · simp [findA, updateA, he, hk, Ne.symm h]
        · simp [findA, updateA, he, hk, ih]

theorem findA_map_val {α β : Type} (g : α → β) (k : String)
    (l : List (String × α)) :
    findA k (l.map (fun e => (e.1, g e.2))) = (findA k l).map g := by
  induction l with
  | nil => simp [findA]
  | cons e rest ih =>
      by_cases h : e.1 = k
      · simp [findA, h]
      · simp [findA, h, ih]

theorem findA_isSome_iff_mem {α : Type} (k : String) (l : List (String × α)) :
    (findA k l).isSome = true ↔ k ∈ l.map Prod.fst := by
  induction l with
  | nil => simp [findA]
  | cons e rest ih =>
      by_cases h : e.1 = k
      · simp [findA, h]
      · simp [findA, h, ih, Ne.symm h]

theorem findA_eq_none_of_not_mem {α : Type} (k : String)
    (l : List (String × α)) (h : k ∉ l.map Prod.fst) : findA k l = none := by
  cases hf : findA k l with
  | none => rfl
  | some v =>
      exact absurd ((findA_isSome_iff_mem k l).mp (by simp [hf])) h

theorem findA_map_graph {α : Type} (g : String → α) (k : String)
    (ks : List String) :
    findA k (ks.map (fun x => (x, g x))) =
      if k ∈ ks then some (g k) else none := by
  induction ks with
  | nil => simp [findA]
  | cons x rest ih =>
      by_cases h : x = k
      · subst h; simp [findA]
      · simp [findA, h, ih, Ne.symm h]

theorem mem_setUnion_aux (l : List String) :
    ∀ (acc : List String) (x : String),
      x ∈ l.foldl (fun acc y => if y ∈ acc then acc else acc ++ [y]) acc ↔
        x ∈ acc ∨ x ∈ l := by
  induction l with
  | nil => simp
  | cons y rest ih =>
      intro acc x
      by_cases hy : y ∈ acc
      · simp only [List.foldl_cons, if_pos hy, ih]
        constructor
        · rintro (h | h)
          · exact Or.inl h
          · exact Or.inr (List.mem_cons_of_mem y h)
        · rintro (h | h)
          · exact Or.inl h
          · rcases List.mem_cons.mp h with h | h
            · exact Or.inl (h ▸ hy)
            · exact Or.inr h
      · simp only [List.foldl_cons, if_neg hy, ih, List.mem_append,
          List.mem_singleton, List.mem_cons]
        tauto

theorem mem_setUnion (l : List String) (x : String) :
    x ∈ setUnion l ↔ x ∈ l := by
  unfold setUnion
  rw [mem_setUnion_aux]
  simp

/-! ## Merge-engine lemmas -/

theorem findA_mergeDaily (base fresh : List (String × DailyMetrics))
    (d : String) :
    findA d (mergeDaily base fresh) = (findA d base).or (findA d fresh) := by
  induction fresh generalizing base with
  | nil => simp [mergeDaily, findA]
  | cons e rest ih =>
      show findA d (mergeDaily (if (findA e.1 base).isSome then base
        else base ++ [e]) rest) = _
      by_cases hb : (findA e.1 base).isSome
      · rw [if_pos hb, ih]
        by_cases hd : e.1 = d
        · subst hd
          rcases Option.isSome_iff_exists.mp hb with ⟨v, hv⟩
          simp [findA, hv]
        · simp [findA, hd]
      · rw [if_neg hb, ih, findA_append]
        by_cases hd : e.1 = d
        · subst hd
          rw [Option.not_isSome_iff_eq_none] at hb
          simp [findA, hb]
        · simp [findA, hd]

theorem lookupDaily_mergeUsersStep_of_some
    (base : List (String × UserWeekRecord)) (e : String × UserWeekRecord)
    (u d : String) (m : DailyMetrics)
    (h : lookupDaily base u d = some m) :
    lookupDaily (mergeUsersStep base e) u d = some m := by
  rcases hu : findA u base with _ | r
  · simp [lookupDaily, hu] at h
  · have hd : findA d r.daily = some m := by simpa [lookupDaily, hu] using h
    by_cases he : e.1 = u
    · subst he
      have hs : (findA e.1 base).isSome := by simp [hu]
      unfold mergeUsersStep ensureUserExists
      rw [if_pos hs]
      simp only [lookupDaily, findA_updateA_self, hu]
      simp [findA_mergeDaily, hd]
    · unfold mergeUsersStep ensureUserExists
      by_cases hs : (findA e.1 base).isSome
      · rw [if_pos hs]
        simp only [lookupDaily, findA_updateA_ne _ _ _ _ he, hu,
          Option.some_bind]
        exact hd
      · rw [if_neg hs]
        simp only [lookupDaily, findA_updateA_ne _ _ _ _ he, findA_append, hu]
        simp [hd]

theorem lookupDaily_mergeUsers_of_some
    (fresh : List (String × UserWeekRecord)) (base : List (String × UserWeekRecord))
    (u d : String) (m : DailyMetrics)
    (h : lookupDaily base u d = some m) :
    lookupDaily (mergeUsers base fresh) u d = some m := by
  induction fresh generalizing base with
  | nil => exact h
  | cons e rest ih =>
      exact ih (mergeUsersStep base e)
        (lookupDaily_mergeUsersStep_of_some base e u d m h)

theorem lookupDaily_map_recompute (users : List (String × UserWeekRecord))
    (u d : String) :
    lookupDaily (users.map (fun e => (e.1, recomputeUser e.2))) u d =
      lookupDaily users u d := by
  simp only [lookupDaily, findA_map_val]
  cases findA u users <;> simp [recomputeUser]

/-- C1: the merge is append-only — a day already recorded for a user in
the existing snapshot survives the merge unchanged, whatever the fresh
snapshot holds for that user and date. -/
theorem merge_append_only (existingData newData : WeekSnapshot) (now : String)
    (u d : String) (m : DailyMetrics)
    (h : lookupDaily existingData.users u d = some m) :
    lookupDaily (mergeWithExisting existingData newData now).users u d =
      some m := by
  show lookupDaily
    ((mergeUsers existingData.users newData.users).map
      (fun e => (e.1, recomputeUser e.2))) u d = some m
  rw [lookupDaily_map_recompute]
  exact lookupDaily_mergeUsers_of_some newData.users existingData.users u d m h

/-- Scenario-B style data: alice already has the 22nd recorded. -/
def exMetricsA : DailyMetrics := ⟨3, 1, 10, 2, 0, 0, 0⟩

/-- Conflicting fresh value for the already-recorded 22nd. -/
def exMetricsB : DailyMetrics := ⟨99, 0, 5, 5, 0, 0, 0⟩

/-- Fresh value for the not-yet-recorded 23rd. -/
def exMetricsC : DailyMetrics := ⟨1, 0, 0, 0, 0, 0, 0⟩

/-- An existing snapshot holding alice's 22nd. -/
def exExisting : WeekSnapshot :=
  { week := "2025-52", weekStart := 739608, weekEnd := 739614
    generatedAt := "t0", repositories := ["sisp-sweden/ssn-admin"]
    repositoryMetrics := [("sisp-sweden/ssn-admin", exMetricsA)]
    users := [("alice", ⟨[("2025-12-22", exMetricsA)], exMetricsA⟩)] }

/-- A fresh snapshot with a conflicting 22nd and a new 23rd for alice. -/
def exFresh : WeekSnapshot :=
  { week := "2025-52", weekStart := 739608, weekEnd := 739614
    generatedAt := "t1", repositories := ["sisp-sweden/ssn-admin"]
    repositoryMetrics := [("sisp-sweden/ssn-admin", exMetricsB)]
    users :=
      [("alice",
        ⟨[("2025-12-22", exMetricsB), ("2025-12-23", exMetricsC)],
          zeroMetrics⟩)] }

/-- Witness for C1 at Scenario-B data: the existing 22nd survives. -/
theorem merge_append_only_witness :
    lookupDaily (mergeWithExisting exExisting exFresh "t2").users "alice"
      "2025-12-22" = some exMetricsA :=
  merge_append_only exExisting exFresh "t2" "alice" "2025-12-22" exMetricsA
    (by decide)

/-- Field-wise addition is associative. -/
theorem addMetrics_assoc (a b c : DailyMetrics) :
    addMetrics (addMetrics a b) c = addMetrics a (addMetrics b c) := by
  simp [addMetrics, Nat.add_assoc]

theorem addMetrics_zero_left (b : DailyMetrics) :
    addMetrics zeroMetrics b = b := by
  cases b; simp [addMetrics, zeroMetrics]

theorem foldl_addMetrics (l : List (String × DailyMetrics)) :
    ∀ acc : DailyMetrics,
      l.foldl (fun a e => addMetrics a e.2) acc =
        addMetrics acc
          ⟨(l.map (fun e => e.2.commits)).sum, (l.map (fun e => e.2.prs)).sum,
           (l.map (fun e => e.2.linesAdded)).sum,
           (l.map (fun e => e.2.linesDeleted)).sum,
           (l.map (fun e => e.2.reviewsGiven)).sum,
           (l.map (fun e => e.2.reviewCommentsGiven)).sum,
           (l.map (fun e => e.2.discussionCommentsGiven)).sum⟩ := by
  induction l with
  | nil => intro acc; cases acc; simp [addMetrics]
  | cons e rest ih =>
      intro acc
      simp only [List.foldl_cons, ih, List.map_cons, List.sum_cons]
      rw [addMetrics_assoc]
      simp [addMetrics]

/-- `dailySum` computes the field-wise sums of the daily entries. -/
theorem dailySum_eq (l : List (String × DailyMetrics)) :
    dailySum l =
      ⟨(l.map (fun e => e.2.commits)).sum, (l.map (fun e => e.2.prs)).sum,
       (l.map (fun e => e.2.linesAdded)).sum,
       (l.map (fun e => e.2.linesDeleted)).sum,
       (l.map (fun e => e.2.reviewsGiven)).sum,
       (l.map (fun e => e.2.reviewCommentsGiven)).sum,
       (l.map (fun e => e.2.discussionCommentsGiven)).sum⟩ := by
  unfold dailySum
  rw [foldl_addMetrics, addMetrics_zero_left]

/-- The weekly roll-up of a user record equals the field-wise sum of its
daily entries, for each of the seven metric fields. -/
def WeeklyIsFieldwiseSum (rec : UserWeekRecord) : Prop :=
  rec.weekly.commits = (rec.daily.map (fun e => e.2.commits)).sum ∧
  rec.weekly.prs = (rec.daily.map (fun e => e.2.prs)).sum ∧
  rec.weekly.linesAdded = (rec.daily.map (fun e => e.2.linesAdded)).sum ∧
  rec.weekly.linesDeleted = (rec.daily.map (fun e => e.2.linesDeleted)).sum ∧
  rec.weekly.reviewsGiven = (rec.daily.map (fun e => e.2.reviewsGiven)).sum ∧
  rec.weekly.reviewCommentsGiven =
    (rec.daily.map (fun e => e.2.reviewCommentsGiven)).sum ∧
  rec.weekly.discussionCommentsGiven =
    (rec.daily.map (fun e => e.2.discussionCommentsGiven)).sum

/-- C2: after `calculateWeeklyTotals` every user's weekly record is the
field-wise sum of that user's daily entries, and running
`calculateWeeklyTotals` again changes nothing. -/
theorem weekly_totals_invariant (s : WeekSnapshot) (u : String)
    (rec : UserWeekRecord)
    (h : findA u (calculateWeeklyTotals s).users = some rec) :
    WeeklyIsFieldwiseSum rec ∧
      calculateWeeklyTotals (calculateWeeklyTotals s) =
        calculateWeeklyTotals s := by
  constructor
  · have h' : (findA u s.users).map recomputeUser = some rec := by
      simpa [calculateWeeklyTotals, findA_map_val] using h
    rcases Option.map_eq_some'.mp h' with ⟨r0, _, hr⟩
    subst hr
    unfold WeeklyIsFieldwiseSum recomputeUser
    rw [dailySum_eq]
    exact ⟨rfl, rfl, rfl, rfl, rfl, rfl, rfl⟩
  · simp [calculateWeeklyTotals, List.map_map, Function.comp, recomputeUser]

/-- An unnormalized snapshot (weekly deliberately stale). -/
def exStale : WeekSnapshot :=
  { week := "2025-51", weekStart := 739601, weekEnd := 739607
    generatedAt := "t0", repositories := []
    repositoryMetrics := []
    users :=
      [("alice",
        ⟨[("2025-12-15", exMetricsA), ("2025-12-16", exMetricsC)],
          zeroMetrics⟩)] }

/-- The record `calculateWeeklyTotals` produces for alice in `exStale`. -/
def exRecomputed : UserWeekRecord :=
  recomputeUser ⟨[("2025-12-15", exMetricsA), ("2025-12-16", exMetricsC)],
    zeroMetrics⟩

/-- Witness for C2 at a concrete snapshot. -/
theorem weekly_totals_invariant_witness :
    WeeklyIsFieldwiseSum exRecomputed ∧
      calculateWeeklyTotals (calculateWeeklyTotals exStale) =
        calculateWeeklyTotals exStale :=
  weekly_totals_invariant exStale "alice" exRecomputed rfl

/-- C6: merging a freshly created empty snapshot into `S` yields exactly
`S` with its weekly totals recomputed; only the `generatedAt` stamp is
replaced by the merge time. -/
theorem merge_empty_idempotent (S : WeekSnapshot) (year week : ℤ)
    (t t2 : String) :
    mergeWithExisting S (createEmptyWeekStructure year week [] t2) t =
      { calculateWeeklyTotals S with generatedAt := t } := by
  rfl

/-- C10: the merge keeps the existing snapshot's `repositoryMetrics`
verbatim and drops the fresh snapshot's, including any aggregates the
`record*` operations accumulated into the fresh snapshot. -/
theorem merge_discards_fresh_repositoryMetrics (e f : WeekSnapshot)
    (now : String) :
    (mergeWithExisting e f now).repositoryMetrics = e.repositoryMetrics ∧
      (∀ (r : String) (m : DailyMetrics),
        (mergeWithExisting e (addMetricsToRepository f r m)
          now).repositoryMetrics = e.repositoryMetrics) ∧
      (∀ (username date : String) (la ld : ℕ) (r : String),
        (mergeWithExisting e
          (addCommitToData f username date la ld (some r))
          now).repositoryMetrics = e.repositoryMetrics) := by
  exact ⟨rfl, fun _ _ => rfl, fun _ _ _ _ _ => rfl⟩

/-- C3: `calculatePercentageChange` classifies every pair of naturals by
the four priority rules, and exactly one classification holds. -/
theorem pct_change_classification (current previous : ℕ) :
    (current = 0 ∧ previous = 0 →
      (calculatePercentageChange current previous).isNoData = true ∧
      (calculatePercentageChange current previous).change = PctChange.val 0 ∧
      (calculatePercentageChange current previous).delta = 0) ∧
    (0 < current ∧ previous = 0 →
      (calculatePercentageChange current previous).isNew = true ∧
      (calculatePercentageChange current previous).change = PctChange.inf ∧
      (calculatePercentageChange current previous).delta = (current : ℤ)) ∧
    (current = 0 ∧ 0 < previous →
      (calculatePercentageChange current previous).isInactive = true ∧
      (calculatePercentageChange current previous).change =
        PctChange.val (-100) ∧
      (calculatePercentageChange current previous).delta = -(previous : ℤ)) ∧
    (0 < current ∧ 0 < previous →
      isNormalComparison (calculatePercentageChange current previous) = true ∧
      (calculatePercentageChange current previous).change =
        PctChange.val
          (round1 (((current : ℚ) - (previous : ℚ)) / (previous : ℚ) * 100)) ∧
      (calculatePercentageChange current previous).delta =
        (current : ℤ) - (previous : ℤ)) ∧
    ((if (calculatePercentageChange current previous).isNoData then 1 else 0) +
      (if (calculatePercentageChange current previous).isNew then 1 else 0) +
      (if (calculatePercentageChange current previous).isInactive then 1
        else 0) +
      (if isNormalComparison (calculatePercentageChange current previous)
        then 1 else 0) = (1 : ℕ)) := by
  rcases Nat.eq_zero_or_pos current with hc | hc <;>
    rcases Nat.eq_zero_or_pos previous with hp | hp
  · subst hc; subst hp
    simp [calculatePercentageChange, isNormalComparison]
  · subst hc
    simp [calculatePercentageChange, isNormalComparison, hp, hp.ne',
      Nat.pos_iff_ne_zero]
  · subst hp
    simp [calculatePercentageChange, isNormalComparison, hc, hc.ne',
      Nat.pos_iff_ne_zero]
  · simp [calculatePercentageChange, isNormalComparison, hc, hp, hc.ne',
      hp.ne', Nat.pos_iff_ne_zero]

/-- Witness for C3 at the Scenario-C inputs. -/
theorem pct_change_classification_witness :
    (calculatePercentageChange 0 0).isNoData = true ∧
      (calculatePercentageChange 5 0).isNew = true ∧
      (calculatePercentageChange 0 5).isInactive = true ∧
      (calculatePercentageChange 0 5).change = PctChange.val (-100) ∧
      (calculatePercentageChange 150 100).delta = 50 ∧
      isNormalComparison (calculatePercentageChange 150 100) = true :=
  ⟨((pct_change_classification 0 0).1 ⟨rfl, rfl⟩).1,
    ((pct_change_classification 5 0).2.1 ⟨by decide, rfl⟩).1,
    ((pct_change_classification 0 5).2.2.1 ⟨rfl, by decide⟩).1,
    ((pct_change_classification 0 5).2.2.1 ⟨rfl, by decide⟩).2.1,
    Eq.trans
      ((pct_change_classification 150 100).2.2.2.1
        ⟨by decide, by decide⟩).2.2 (by decide),
    ((pct_change_classification 150 100).2.2.2.1 ⟨by decide, by decide⟩).1⟩

/-- C4: evaluation of `getPreviousWeek` at the failing input.  Rolling
back from week 1 of 2021 yields the hard-coded week 52 of 2020, yet 2020
actually has 53 ISO weeks, so the claimed rollover to the prior year's
last ISO week fails; the week > 1 branch does decrement as claimed. -/
theorem previous_week_rollover_eval :
    getPreviousWeek 2021 1 = (2020, 52) ∧ isoWeeksInYear 2020 = 53 ∧
      getPreviousWeek 2021 2 = (2021, 1) := by
  refine ⟨rfl, by decide, rfl⟩

/-- Rounding to two decimals is the identity on rationals that are an
integer number of hundredths. -/
theorem round2_eq_self (q : ℚ) (n : ℤ) (h : q * 100 = (n : ℚ)) :
    round2 q = q := by
  have h100 : (100 : ℚ) ≠ 0 := by norm_num
  have hq : q = (n : ℚ) / 100 := by rw [eq_div_iff h100]; exact h
  have hfl : ⌊(n : ℚ) + 1 / 2⌋ = n := by
    rw [add_comm, Int.floor_add_int]
    norm_num
  simp only [round2, jsRound_eq_floor, h, hfl]
  exact hq.symm

/-- C9: the score breakdown follows the weighted formula, each component
rounded to two decimal places (a no-op here since every component is an
integer number of hundredths); the code component is capped at 300 and the
total agrees with `calculateContributionScore`; at the Scenario-D input
with 50000 added lines the code component is exactly the cap. -/
theorem contribution_score_breakdown_spec :
    (∀ d : ScoreInput,
      (calculateContributionScoreBreakdown d).commits = (d.commits : ℚ) * 2 ∧
      (calculateContributionScoreBreakdown d).prs = (d.prs : ℚ) * 5 ∧
      (calculateContributionScoreBreakdown d).reviews =
        (d.reviewsGiven : ℚ) * 5 + (d.uniquePRsReviewed : ℚ) * 4 +
          (d.reviewCommentsGiven : ℚ) * 1 ∧
      (calculateContributionScoreBreakdown d).code =
        min (((d.linesAdded : ℚ) + (d.linesDeleted : ℚ)) * (1 / 100)) 300 ∧
      (calculateContributionScoreBreakdown d).code ≤ 300 ∧
      (calculateContributionScoreBreakdown d).total =
        calculateContributionScore d) ∧
    (calculateContributionScoreBreakdown ⟨10, 2, 50000, 0, 0, 0, 0⟩).code =
      300 := by
  have hmin : ∀ la ld : ℕ,
      min (((la : ℚ) + (ld : ℚ)) * (1 / 100)) 300 * 100 =
        ((min ((la : ℤ) + (ld : ℤ)) 30000 : ℤ) : ℚ) := by
    intro la ld
    rcases le_total ((la : ℚ) + (ld : ℚ)) 30000 with h | h
    · rw [min_eq_left (by linarith), min_eq_left (by exact_mod_cast h)]
      push_cast
      ring
    · rw [min_eq_right (by linarith), min_eq_right (by exact_mod_cast h)]
      norm_num
  constructor
  · intro d
    have hC : round2 ((d.commits : ℚ) * 2) = (d.commits : ℚ) * 2 :=
      round2_eq_self _ ((d.commits : ℤ) * 200) (by push_cast; ring)
    have hP : round2 ((d.prs : ℚ) * 5) = (d.prs : ℚ) * 5 :=
      round2_eq_self _ ((d.prs : ℤ) * 500) (by push_cast; ring)
    have hR : round2 ((d.reviewsGiven : ℚ) * 5 +
        (d.uniquePRsReviewed : ℚ) * 4 + (d.reviewCommentsGiven : ℚ) * 1) =
        (d.reviewsGiven : ℚ) * 5 + (d.uniquePRsReviewed : ℚ) * 4 +
          (d.reviewCommentsGiven : ℚ) * 1 :=
      round2_eq_self _ ((d.reviewsGiven : ℤ) * 500 +
        (d.uniquePRsReviewed : ℤ) * 400 + (d.reviewCommentsGiven : ℤ) * 100)
        (by push_cast; ring)
    have hCode : round2 (min (((d.linesAdded : ℚ) + (d.linesDeleted : ℚ)) *
        (1 / 100)) 300) =
        min (((d.linesAdded : ℚ) + (d.linesDeleted : ℚ)) * (1 / 100)) 300 :=
      round2_eq_self _ (min ((d.linesAdded : ℤ) + (d.linesDeleted : ℤ)) 30000)
        (hmin d.linesAdded d.linesDeleted)
    have hT : round2 ((d.commits : ℚ) * 2 + (d.prs : ℚ) * 5 +
        ((d.reviewsGiven : ℚ) * 5 + (d.uniquePRsReviewed : ℚ) * 4 +
          (d.reviewCommentsGiven : ℚ) * 1) +
        min (((d.linesAdded : ℚ) + (d.linesDeleted : ℚ)) * (1 / 100)) 300) =
        (d.commits : ℚ) * 2 + (d.prs : ℚ) * 5 +
        ((d.reviewsGiven : ℚ) * 5 + (d.uniquePRsReviewed : ℚ) * 4 +
          (d.reviewCommentsGiven : ℚ) * 1) +
        min (((d.linesAdded : ℚ) + (d.linesDeleted : ℚ)) * (1 / 100)) 300 :=
      round2_eq_self _ ((d.commits : ℤ) * 200 + (d.prs : ℤ) * 500 +
        ((d.reviewsGiven : ℤ) * 500 + (d.uniquePRsReviewed : ℤ) * 400 +
          (d.reviewCommentsGiven : ℤ) * 100) +
        min ((d.linesAdded : ℤ) + (d.linesDeleted : ℤ)) 30000)
        (by
          push_cast [← hmin d.linesAdded d.linesDeleted]
          ring)
    refine ⟨?_, ?_, ?_, ?_, ?_, ?_⟩
    · simpa only [calculateContributionScoreBreakdown, CODE_SCORE_CAP]
        using hC
    · simpa only [calculateContributionScoreBreakdown, CODE_SCORE_CAP]
        using hP
    · simpa only [calculateContributionScoreBreakdown, CODE_SCORE_CAP]
        using hR
    · simpa only [calculateContributionScoreBreakdown, CODE_SCORE_CAP]
        using hCode
    · have : (calculateContributionScoreBreakdown d).code =
          min (((d.linesAdded : ℚ) + (d.linesDeleted : ℚ)) * (1 / 100)) 300 :=
        by simpa only [calculateContributionScoreBreakdown, CODE_SCORE_CAP]
          using hCode
      rw [this]
      exact min_le_right _ _
    · have : (calculateContributionScoreBreakdown d).total =
          (d.commits : ℚ) * 2 + (d.prs : ℚ) * 5 +
          ((d.reviewsGiven : ℚ) * 5 + (d.uniquePRsReviewed : ℚ) * 4 +
            (d.reviewCommentsGiven : ℚ) * 1) +
          min (((d.linesAdded : ℚ) + (d.linesDeleted : ℚ)) * (1 / 100)) 300 :=
        by simpa only [calculateContributionScoreBreakdown, CODE_SCORE_CAP]
          using hT
      rw [this]
      simp only [calculateContributionScore, CODE_SCORE_CAP]
      ring
  · show round2 (min ((((50000 : ℕ) : ℚ) + ((0 : ℕ) : ℚ)) * (1 / 100))
      CODE_SCORE_CAP) = 300
    have h3 : min ((((50000 : ℕ) : ℚ) + ((0 : ℕ) : ℚ)) * (1 / 100))
        CODE_SCORE_CAP = 300 := by
      simp only [CODE_SCORE_CAP]
      norm_num
    rw [h3]
    exact round2_eq_self 300 30000 (by norm_num)

/-- A current week whose only user is alice. -/
def exCurrentWeek : WeekSnapshot :=
  { week := "2026-02", weekStart := 739615, weekEnd := 739621
    generatedAt := "t0", repositories := []
    repositoryMetrics := []
    users := [("alice", ⟨[], ⟨4, 1, 10, 0, 0, 0, 0⟩⟩)] }

/-- A previous week whose only user is bob, with non-zero commits. -/
def exPreviousWeek : WeekSnapshot :=
  { week := "2026-01", weekStart := 739608, weekEnd := 739614
    generatedAt := "t0", repositories := []
    repositoryMetrics := []
    users := [("bob", ⟨[], ⟨7, 0, 3, 1, 0, 0, 0⟩⟩)] }

/-- C5 counterexample: with a null previous week the code returns an
empty per-user comparison map, although the union of usernames contains
alice. -/
theorem compare_weeks_null_counterexample :
    (findA "alice" exCurrentWeek.users).isSome = true ∧
      (compareWeeks exCurrentWeek none).users = [] :=
  ⟨rfl, rfl⟩

/-- C5 (amended to a non-null previous week): the per-user comparison map
is built over exactly the union of usernames of the two weeks, each block
classifying the four metrics between the two weekly records (zero
defaults when a user misses a week); a user present only in the previous
week with non-zero commits appears and is classified inactive. -/
theorem compare_weeks_union_spec (cur prev : WeekSnapshot) :
    (∀ u : String,
      (findA u (compareWeeks cur (some prev)).users).isSome = true ↔
        ((findA u cur.users).isSome = true ∨
          (findA u prev.users).isSome = true)) ∧
    (∀ (u : String) (uc : UserComparison),
      findA u (compareWeeks cur (some prev)).users = some uc →
        uc = mkUserComparison (userWeeklyOr0 cur u) (userWeeklyOr0 prev u)) ∧
    (∀ (u : String) (rec : UserWeekRecord),
      findA u cur.users = none → findA u prev.users = some rec →
        0 < rec.weekly.commits →
        ∃ uc, findA u (compareWeeks cur (some prev)).users = some uc ∧
          uc.commits.isInactive = true) := by
  have husers : (compareWeeks cur (some prev)).users =
      (setUnion (cur.users.map Prod.fst ++ prev.users.map Prod.fst)).map
        (fun u => (u, mkUserComparison (userWeeklyOr0 cur u)
          (userWeeklyOr0 prev u))) := rfl
  have hmem : ∀ u : String,
      u ∈ setUnion (cur.users.map Prod.fst ++ prev.users.map Prod.fst) ↔
        ((findA u cur.users).isSome = true ∨
          (findA u prev.users).isSome = true) := by
    intro u
    rw [mem_setUnion, List.mem_append, findA_isSome_iff_mem,
      findA_isSome_iff_mem]
  refine ⟨?_, ?_, ?_⟩
  · intro u
    rw [husers, findA_map_graph, ← hmem u]
    by_cases h : u ∈ setUnion (cur.users.map Prod.fst ++
        prev.users.map Prod.fst)
    · simp [h]
    · simp [h]
  · intro u uc h
    rw [husers, findA_map_graph] at h
    by_cases hu : u ∈ setUnion (cur.users.map Prod.fst ++
        prev.users.map Prod.fst)
    · rw [if_pos hu] at h
      exact (Option.some_inj.mp h).symm
    · rw [if_neg hu] at h
      exact absurd h (by simp)
  · intro u rec hcur hprev hpos
    have hu : u ∈ setUnion (cur.users.map Prod.fst ++ prev.users.map Prod.fst)
      := (hmem u).mpr (Or.inr (by simp [hprev]))
    refine ⟨mkUserComparison (userWeeklyOr0 cur u) (userWeeklyOr0 prev u),
      by rw [husers, findA_map_graph, if_pos hu], ?_⟩
    have hcw : userWeeklyOr0 cur u = zeroMetrics := by
      simp [userWeeklyOr0, hcur]
    have hpw : userWeeklyOr0 prev u = rec.weekly := by
      simp [userWeeklyOr0, hprev]
    rw [hcw, hpw]
    show (mkMetricComparison zeroMetrics.commits rec.weekly.commits).isInactive
      = true
    simp [mkMetricComparison, calculatePercentageChange, zeroMetrics,
      hpos, hpos.ne']

/-- Witness for C5: bob, only present in the previous week, appears in
the comparison classified inactive. -/
theorem compare_weeks_union_spec_witness :
    ∃ uc, findA "bob"
        (compareWeeks exCurrentWeek (some exPreviousWeek)).users = some uc ∧
      uc.commits.isInactive = true :=
  (compare_weeks_union_spec exCurrentWeek exPreviousWeek).2.2 "bob"
    ⟨[], ⟨7, 0, 3, 1, 0, 0, 0⟩⟩ rfl rfl (by decide)

/-- Unique keys, as JavaScript objects have. -/
abbrev NodupKeys {α : Type} (l : List (String × α)) : Prop :=
  (l.map Prod.fst).Nodup

theorem lookupDaily_mergeUsersStep (base : List (String × UserWeekRecord))
    (e : String × UserWeekRecord) (u d : String) :
    lookupDaily (mergeUsersStep base e) u d =
      if e.1 = u then (lookupDaily base u d).or (findA d e.2.daily)
      else lookupDaily base u d := by
  by_cases he : e.1 = u
  · rw [if_pos he]
    subst he
    by_cases hs : (findA e.1 base).isSome
    · rcases Option.isSome_iff_exists.mp hs with ⟨r, hu⟩
      unfold mergeUsersStep ensureUserExists
      rw [if_pos hs]
      simp only [lookupDaily, findA_updateA_self, hu, Option.map_some',
        Option.some_bind, findA_mergeDaily]
    · have hu : findA e.1 base = none := Option.not_isSome_iff_eq_none.mp hs
      unfold mergeUsersStep ensureUserExists
      rw [if_neg hs]
      simp only [lookupDaily, findA_updateA_self, findA_append, hu,
        Option.none_or, hu, Option.none_bind]
      simp [findA, findA_mergeDaily]
  · rw [if_neg he]
    unfold mergeUsersStep ensureUserExists
    by_cases hs : (findA e.1 base).isSome
    · rw [if_pos hs]
      simp only [lookupDaily, findA_updateA_ne _ _ _ _ he]
    · rw [if_neg hs]
      simp only [lookupDaily, findA_updateA_ne _ _ _ _ he, findA_append]
      simp [findA, he]

/-- With unique fresh user keys, a merged daily lookup is the existing
value when present, else the fresh one. -/
theorem lookupDaily_mergeUsers_char (fresh : List (String × UserWeekRecord))
    (base : List (String × UserWeekRecord)) (u d : String)
    (hf : NodupKeys fresh) :
    lookupDaily (mergeUsers base fresh) u d =
      (lookupDaily base u d).or (lookupDaily fresh u d) := by
  induction fresh generalizing base with
  | nil => simp [mergeUsers, lookupDaily, findA]
  | cons e rest ih =>
      rcases List.nodup_cons.mp hf with ⟨hnotin, hrest⟩
      show lookupDaily (mergeUsers (mergeUsersStep base e) rest) u d = _
      rw [ih (mergeUsersStep base e) hrest, lookupDaily_mergeUsersStep]
      by_cases he : e.1 = u
      · rw [if_pos he]
        have hrestnone : lookupDaily rest u d = none := by
          have : findA u rest = none :=
            findA_eq_none_of_not_mem u rest (he ▸ hnotin)
          simp [lookupDaily, this]
        have hhead : lookupDaily (e :: rest) u d = findA d e.2.daily := by
          simp [lookupDaily, findA, he]
        rw [hrestnone, hhead]
        simp
      · rw [if_neg he]
        have : lookupDaily (e :: rest) u d = lookupDaily rest u d := by
          simp [lookupDaily, findA, he]
        rw [this]

theorem findA_mergeUsersStep_isSome (base : List (String × UserWeekRecord))
    (e : String × UserWeekRecord) (u : String) :
    (findA u (mergeUsersStep base e)).isSome =
      ((findA u base).isSome || decide (e.1 = u)) := by
  by_cases he : e.1 = u
  · subst he
    by_cases hs : (findA e.1 base).isSome
    · unfold mergeUsersStep ensureUserExists
      rw [if_pos hs]
      simp [findA_updateA_self, hs]
    · unfold mergeUsersStep ensureUserExists
      rw [if_neg hs]
      simp [findA_updateA_self, findA_append, findA]
  · unfold mergeUsersStep ensureUserExists
    by_cases hs : (findA e.1 base).isSome
    · rw [if_pos hs]
      simp [findA_updateA_ne _ _ _ _ he, he]
    · rw [if_neg hs]
      simp [findA_updateA_ne _ _ _ _ he, findA_append, findA, he]

theorem findA_mergeUsers_isSome (fresh : List (String × UserWeekRecord))
    (base : List (String × UserWeekRecord)) (u : String) :
    (findA u (mergeUsers base fresh)).isSome =
      ((findA u base).isSome || (findA u fresh).isSome) := by
  induction fresh generalizing base with
  | nil => simp [mergeUsers, findA]
  | cons e rest ih =>
      show (findA u (mergeUsers (mergeUsersStep base e) rest)).isSome = _
      rw [ih (mergeUsersStep base e), findA_mergeUsersStep_isSome]
      by_cases he : e.1 = u
      · simp [findA, he]
      · simp [findA, he, Bool.or_assoc]

/-- Membership in the merged repository list is membership in either
side's list. -/
theorem mem_merge_repositories (e f : WeekSnapshot) (now : String)
    (r : String) :
    r ∈ (mergeWithExisting e f now).repositories ↔
      r ∈ e.repositories ∨ r ∈ f.repositories := by
  show r ∈ (if f.repositories.isEmpty then e.repositories
    else setUnion (e.repositories ++ f.repositories)) ↔ _
  by_cases hf : f.repositories.isEmpty
  · rw [if_pos hf]
    have : f.repositories = [] := List.isEmpty_iff.mp hf
    simp [this]
  · rw [if_neg hf, mem_setUnion, List.mem_append]

/-- The daily data of a merged snapshot: existing first, else fresh. -/
theorem lookupDaily_merge (e f : WeekSnapshot) (now : String) (u d : String)
    (hf : NodupKeys f.users) :
    lookupDaily (mergeWithExisting e f now).users u d =
      (lookupDaily e.users u d).or (lookupDaily f.users u d) := by
  show lookupDaily ((mergeUsers e.users f.users).map
    (fun x => (x.1, recomputeUser x.2))) u d = _
  rw [lookupDaily_map_recompute]
  exact lookupDaily_mergeUsers_char f.users e.users u d hf

/-- User presence in a merged snapshot. -/
theorem findA_merge_isSome (e f : WeekSnapshot) (now : String) (u : String) :
    (findA u (mergeWithExisting e f now).users).isSome =
      ((findA u e.users).isSome || (findA u f.users).isSome) := by
  show (findA u ((mergeUsers e.users f.users).map
    (fun x => (x.1, recomputeUser x.2)))).isSome = _
  rw [findA_map_val]
  rw [Option.isSome_map']
  exact findA_mergeUsers_isSome f.users e.users u

/-- A base snapshot with no users. -/
def exMergeBase : WeekSnapshot :=
  { week := "2026-01", weekStart := 739608, weekEnd := 739614
    generatedAt := "t0", repositories := []
    repositoryMetrics := [], users := [] }

/-- A fresh snapshot recording one commit for alice on a day. -/
def exConflictA : WeekSnapshot :=
  { week := "2026-01", weekStart := 739608, weekEnd := 739614
    generatedAt := "tA", repositories := []
    repositoryMetrics := []
    users := [("alice", ⟨[("2026-01-05", ⟨1, 0, 0, 0, 0, 0, 0⟩)],
      zeroMetrics⟩)] }

/-- A fresh snapshot recording two commits for alice on the same day. -/
def exConflictB : WeekSnapshot :=
  { week := "2026-01", weekStart := 739608, weekEnd := 739614
    generatedAt := "tB", repositories := []
    repositoryMetrics := []
    users := [("alice", ⟨[("2026-01-05", ⟨2, 0, 0, 0, 0, 0, 0⟩)],
      zeroMetrics⟩)] }

/-- A fresh snapshot with no users at all. -/
def exNoUsers : WeekSnapshot :=
  { week := "2026-01", weekStart := 739608, weekEnd := 739614
    generatedAt := "tE", repositories := []
    repositoryMetrics := [], users := [] }

/-- C7 counterexample: with two fresh snapshots that conflict on the same
(user, date), the merge order decides which value is kept, so the two
orders give different snapshots even with identical `generatedAt`
stamps — merging is first-writer-wins, not commutative. -/
theorem merge_not_commutative_counterexample :
    (mergeWithExisting (mergeWithExisting exMergeBase exConflictA "t1")
        exConflictB "t2").generatedAt =
      (mergeWithExisting (mergeWithExisting exMergeBase exConflictB "t1")
        exConflictA "t2").generatedAt ∧
    lookupDaily (mergeWithExisting (mergeWithExisting exMergeBase exConflictA
        "t1") exConflictB "t2").users "alice" "2026-01-05" = some
        ⟨1, 0, 0, 0, 0, 0, 0⟩ ∧
    lookupDaily (mergeWithExisting (mergeWithExisting exMergeBase exConflictB
        "t1") exConflictA "t2").users "alice" "2026-01-05" = some
        ⟨2, 0, 0, 0, 0, 0, 0⟩ := by
  refine ⟨rfl, by decide, by decide⟩

/-- C7 (amended): provided the two fresh snapshots assign equal metrics to
every (user, date) both record — in particular when their recorded days
are disjoint — the two merge orders agree on every user's every daily
entry, on the set of users, on the set of repositories, and on all
remaining fields except `generatedAt`; the map and list orderings may
still differ. -/
theorem merge_commutative_amended (S A B : WeekSnapshot)
    (t1 t2 t3 t4 : String)
    (hA : NodupKeys A.users) (hB : NodupKeys B.users)
    (hagree : ∀ (u d : String) (a b : DailyMetrics),
      lookupDaily A.users u d = some a → lookupDaily B.users u d = some b →
        a = b) :
    (∀ u d : String,
      lookupDaily (mergeWithExisting (mergeWithExisting S A t1) B t2).users
          u d =
        lookupDaily (mergeWithExisting (mergeWithExisting S B t3) A t4).users
          u d) ∧
    (∀ u : String,
      (findA u (mergeWithExisting (mergeWithExisting S A t1) B
          t2).users).isSome =
        (findA u (mergeWithExisting (mergeWithExisting S B t3) A
          t4).users).isSome) ∧
    (∀ r : String,
      r ∈ (mergeWithExisting (mergeWithExisting S A t1) B t2).repositories ↔
        r ∈ (mergeWithExisting (mergeWithExisting S B t3) A
          t4).repositories) ∧
    (mergeWithExisting (mergeWithExisting S A t1) B t2).week =
      (mergeWithExisting (mergeWithExisting S B t3) A t4).week ∧
    (mergeWithExisting (mergeWithExisting S A t1) B t2).weekStart =
      (mergeWithExisting (mergeWithExisting S B t3) A t4).weekStart ∧
    (mergeWithExisting (mergeWithExisting S A t1) B t2).weekEnd =
      (mergeWithExisting (mergeWithExisting S B t3) A t4).weekEnd ∧
    (mergeWithExisting (mergeWithExisting S A t1) B t2).repositoryMetrics =
      (mergeWithExisting (mergeWithExisting S B t3) A t4).repositoryMetrics
    := by
  refine ⟨?_, ?_, ?_, rfl, rfl, rfl, rfl⟩
  · intro u d
    have hSA : lookupDaily (mergeWithExisting S A t1).users u d =
        (lookupDaily S.users u d).or (lookupDaily A.users u d) :=
      lookupDaily_merge S A t1 u d hA
    have hSB : lookupDaily (mergeWithExisting S B t3).users u d =
        (lookupDaily S.users u d).or (lookupDaily B.users u d) :=
      lookupDaily_merge S B t3 u d hB
    rw [lookupDaily_merge _ B t2 u d hB, lookupDaily_merge _ A t4 u d hA,
      hSA, hSB]
    cases hS : lookupDaily S.users u d with
    | some s => simp
    | none =>
        simp only [Option.none_or]
        cases ha : lookupDaily A.users u d with
        | none => simp
        | some a =>
            cases hb : lookupDaily B.users u d with
            | none => simp
            | some b => simpa using hagree u d a b ha hb
  · intro u
    rw [findA_merge_isSome _ B t2 u, findA_merge_isSome _ A t4 u,
      findA_merge_isSome S A t1 u, findA_merge_isSome S B t3 u]
    cases (findA u S.users).isSome <;>
      cases (findA u A.users).isSome <;>
      cases (findA u B.users).isSome <;> rfl
  · intro r
    rw [mem_merge_repositories _ B t2 r, mem_merge_repositories _ A t4 r,
      mem_merge_repositories S A t1 r, mem_merge_repositories S B t3 r]
    tauto

/-- Witness for the amended C7: a conflict-free pair (the second fresh
snapshot has no users) merged in both orders agrees on alice's day. -/
theorem merge_commutative_amended_witness :
    lookupDaily (mergeWithExisting (mergeWithExisting exMergeBase exConflictA
        "t1") exNoUsers "t2").users "alice" "2026-01-05" =
      lookupDaily (mergeWithExisting (mergeWithExisting exMergeBase exNoUsers
        "t1") exConflictA "t2").users "alice" "2026-01-05" :=
  (merge_commutative_amended exMergeBase exConflictA exNoUsers "t1" "t2" "t1"
    "t2" (by decide) (by decide)
    (fun u d a b _ hb => absurd hb (by simp [lookupDaily, findA, exNoUsers]))
    ).1 "alice" "2026-01-05"

/-! ## Calendar lemmas for the week round-trip -/

theorem daysBeforeYear_succ (y : ℤ) :
    daysBeforeYear y + 364 ≤ daysBeforeYear (y + 1) := by
  unfold daysBeforeYear; omega

theorem daysBeforeYear_le_add (k : ℕ) (a : ℤ) :
    daysBeforeYear a ≤ daysBeforeYear (a + (k : ℤ)) := by
  induction k with
  | zero => simp
  | succ k ih =>
      have h1 := daysBeforeYear_succ (a + (k : ℤ))
      have harg : a + ((k + 1 : ℕ) : ℤ) = (a + (k : ℤ)) + 1 := by
        push_cast
        ring
      rw [harg]
      omega

theorem daysBeforeYear_mono {a b : ℤ} (h : a ≤ b) :
    daysBeforeYear a ≤ daysBeforeYear b := by
  have hk : b = a + (((b - a).toNat : ℕ) : ℤ) := by omega
  calc daysBeforeYear a ≤ daysBeforeYear (a + (((b - a).toNat : ℕ) : ℤ)) :=
        daysBeforeYear_le_add (b - a).toNat a
    _ = daysBeforeYear b := by rw [← hk]

theorem daysBeforeYear_era (e j : ℤ) :
    daysBeforeYear (400 * e + j + 1) = 146097 * e + daysBeforeYear (j + 1) := by
  unfold daysBeforeYear; omega

theorem countP_range_lt (jn N : ℕ) :
    (List.range N).countP (fun k => decide (k < jn)) = min jn N := by
  induction N with
  | zero => simp
  | succ N ih =>
      rw [List.range_succ, List.countP_append, ih]
      rcases Nat.lt_or_ge N jn with h | h
      · simp only [List.countP_cons, List.countP_nil, decide_eq_true_eq,
          if_pos h]
        omega
      · simp only [List.countP_cons, List.countP_nil, decide_eq_true_eq,
          if_neg (Nat.not_lt.mpr h)]
        omega

/-- `yearOfDay` is the inverse of `daysBeforeYear`: a day between the
starts of year `y` and year `y + 1` lies in year `y`. -/
theorem yearOfDay_eq {y n : ℤ} (h1 : daysBeforeYear y ≤ n)
    (h2 : n < daysBeforeYear (y + 1)) : yearOfDay n = y := by
  have he : y - 1 = 400 * ((y - 1) / 400) + (y - 1) % 400 := by omega
  set e := (y - 1) / 400 with hedef
  set j := (y - 1) % 400 with hjdef
  have hj0 : 0 ≤ j := by omega
  have hj400 : j < 400 := by omega
  have hy : y = 400 * e + j + 1 := by omega
  have hera1 : daysBeforeYear y = 146097 * e + daysBeforeYear (j + 1) := by
    rw [hy]; exact daysBeforeYear_era e j
  have hera2 : daysBeforeYear (y + 1) =
      146097 * e + daysBeforeYear (j + 1 + 1) := by
    have harg : y + 1 = 400 * e + (j + 1) + 1 := by omega
    rw [harg]; exact daysBeforeYear_era e (j + 1)
  have hg0 : 0 ≤ daysBeforeYear (j + 1) := by
    have h01 : daysBeforeYear 1 ≤ daysBeforeYear (j + 1) :=
      daysBeforeYear_mono (by omega)
    have hz : daysBeforeYear 1 = 0 := by decide
    omega
  have hgtop : daysBeforeYear (j + 1 + 1) ≤ 146097 := by
    have h01 : daysBeforeYear (j + 1 + 1) ≤ daysBeforeYear 401 :=
      daysBeforeYear_mono (by omega)
    have hz : daysBeforeYear 401 = 146097 := by decide
    omega
  have hdiv : n / 146097 = e := by omega
  have hm1 : daysBeforeYear (j + 1) ≤ n % 146097 := by omega
  have hm2 : n % 146097 < daysBeforeYear (j + 1 + 1) := by omega
  have hcount : (List.range 400).countP
      (fun k : ℕ => decide (daysBeforeYear ((k : ℤ) + 2) ≤ n % 146097)) =
      j.toNat := by
    have hcongr : ∀ k ∈ List.range 400,
        (decide (daysBeforeYear ((k : ℤ) + 2) ≤ n % 146097) = true) ↔
          (decide (k < j.toNat) = true) := by
      intro k _
      rcases Nat.lt_or_ge k j.toNat with h | h
      · have hle : daysBeforeYear ((k : ℤ) + 2) ≤ n % 146097 := by
          have hmono : daysBeforeYear ((k : ℤ) + 2) ≤ daysBeforeYear (j + 1) :=
            daysBeforeYear_mono (by omega)
          omega
        simp [hle, h]
      · have hgt : ¬ daysBeforeYear ((k : ℤ) + 2) ≤ n % 146097 := by
          have hmono : daysBeforeYear (j + 1 + 1) ≤
              daysBeforeYear ((k : ℤ) + 2) :=
            daysBeforeYear_mono (by omega)
          omega
        simp [hgt, Nat.not_lt.mpr h]
    rw [List.countP_congr hcongr, countP_range_lt]
    omega
  unfold yearOfDay
  rw [hcount, hdiv]
  omega

/-- C8: for every valid week coordinate — week between 1 and the actual
ISO week count of the year — the start date of `getWeekDateRange` maps
back to the same (year, week) under `getWeekForDate`. -/
theorem week_round_trip (year week : ℤ) (hw1 : 1 ≤ week)
    (hw2 : week ≤ isoWeeksInYear year) :
    getWeekForDate (getWeekDateRange year week).1 = (year, week) := by
  have hstart : (getWeekDateRange year week).1 =
      mondayOf (jan4 year) + 7 * (week - 1) := rfl
  have hM0 : mondayOf (jan4 year) % 7 = 0 := by unfold mondayOf; omega
  have hM1 : mondayOf (jan4 (year + 1)) % 7 = 0 := by unfold mondayOf; omega
  have hM0le : jan4 year - 6 ≤ mondayOf (jan4 year) ∧
      mondayOf (jan4 year) ≤ jan4 year := by unfold mondayOf; omega
  have hM1le : jan4 (year + 1) - 6 ≤ mondayOf (jan4 (year + 1)) ∧
      mondayOf (jan4 (year + 1)) ≤ jan4 (year + 1) := by
    unfold mondayOf; omega
  have hdiff : mondayOf (jan4 (year + 1)) - mondayOf (jan4 year) =
      7 * isoWeeksInYear year := by
    unfold isoWeeksInYear
    omega
  set n := mondayOf (jan4 year) + 7 * (week - 1) with hn
  have hj4 : jan4 year = daysBeforeYear year + 3 := rfl
  have hj4' : jan4 (year + 1) = daysBeforeYear (year + 1) + 3 := rfl
  have hstep : daysBeforeYear year + 364 ≤ daysBeforeYear (year + 1) :=
    daysBeforeYear_succ year
  have hstepm : daysBeforeYear (year - 1) + 364 ≤ daysBeforeYear year := by
    have h := daysBeforeYear_succ (year - 1)
    have harg : year - 1 + 1 = year := by ring
    rw [harg] at h
    exact h
  have hnlt : n < mondayOf (jan4 (year + 1)) := by omega
  have hnub : n < daysBeforeYear (year + 1) := by omega
  have hy : getISOWeekYear n = year := by
    rcases le_or_lt (daysBeforeYear year) n with hcase | hcase
    · have hyd : yearOfDay n = year := yearOfDay_eq hcase hnub
      unfold getISOWeekYear
      rw [hyd]
      dsimp only
      rw [if_neg (by omega)]
      rw [if_pos (by omega)]
    · have hlb : daysBeforeYear (year - 1) ≤ n := by omega
      have hub' : n < daysBeforeYear (year - 1 + 1) := by
        have harg : year - 1 + 1 = year := by ring
        rw [harg]
        exact hcase
      have hyd : yearOfDay n = year - 1 := yearOfDay_eq hlb hub'
      unfold getISOWeekYear
      rw [hyd]
      dsimp only
      have harg : year - 1 + 1 = year := by ring
      rw [harg]
      rw [if_pos (by omega)]
  have hmonn : mondayOf n = n := by
    unfold mondayOf
    omega
  have hwk : getISOWeek n = week := by
    unfold getISOWeek
    rw [hy, hmonn]
    omega
  show (getISOWeekYear n, getISOWeek n) = (year, week)
  rw [hy, hwk]

/-- Witness for C8 at the Scenario-A week (2025, 52). -/
theorem week_round_trip_witness :
    1 ≤ (52 : ℤ) ∧ (52 : ℤ) ≤ isoWeeksInYear 2025 ∧
      getWeekForDate (getWeekDateRange 2025 52).1 = (2025, 52) :=
  ⟨by decide, by decide, week_round_trip 2025 52 (by decide) (by decide)⟩
